import Mathlib

/-!
Verification of the email-analyzer agent core (batch orchestration, quota-aware
retry, and content-hash result cache) against its specification.

The development shallow-embeds the relevant Python code:
  - src/app.py         : calculateDataHash, loadCachedAnalysis, saveAnalysisToCache,
                         runCompleteAnalysis
  - src/src/agent.py   : the retry loops shared by analyzeEmailBatch,
                         chatWithEmailExpert and analyzeSingleEmailForImprovement,
                         and the batch partitioning in analyzeEmailBatch
  - src/src/processor.py : processEmailData (rates, zero-send filter, score)

Modelling conventions:
  - pandas rows become a record type with optional fields; `row.get(key, default)`
    becomes `Option.getD`.
  - Python float rate arithmetic is modelled exactly: the only float values the
    rate pipeline can produce are finite rationals, positive infinity (k/0 for
    k > 0) and NaN (0/0), captured by an inductive `PFloat`; the delays of the
    retry loop stay in `Rat`, on which the operations involved (+ 2, * 1.5,
    parse of a decimal hint) are exact.
  - `hashlib.md5(s).hexdigest()` is modelled by the string `s` itself (the hash
    pre-image): equal strings give equal digests, and distinct strings give
    distinct digests for every practically encountered input; no claim about
    md5 collisions is made.
  - The Gemini call `model.generate_content` is an injected capability
    `Nat → Except GenErr String`, indexed by the global number of generation
    calls issued so far; `google.api_core.exceptions.ResourceExhausted` becomes
    `GenErr.resourceExhausted`, whose `daily` flag models the substrings
    ("GenerateRequestsPerDay", "free_tier_requests", "limit: 20") that app.py
    matches to detect the daily cap, and whose `retryAfter` field models the
    result of the regex parse of "retry in <n>s" in the error text.
-/

namespace EmailAgent

/-- One row of the messages table as consumed by the analysis pipeline
(src/src/database.py, class Message; only the fields the core reads).
Fields are optional: an absent pandas column makes `row.get(key, default)`
return the default, modelled by `Option.getD`. -/
structure EmailRecord where
  subject : Option String
  plaintext : Option String
  message_body : Option String
  mcsent : Option Nat
  mcopened : Option Nat
  mcclicked : Option Nat
  mcunsub : Option Nat
deriving DecidableEq, Repr

/-- Subject with the default used by app.py: `row.get('subject', '')`. -/
def subjectOf (r : EmailRecord) : String := r.subject.getD ("")

/-- Plaintext body with default: `row.get('plaintext', '')`. -/
def plaintextOf (r : EmailRecord) : String := r.plaintext.getD ("")

/-- HTML body with default: `row.get('message_body', '')`. -/
def messageBodyOf (r : EmailRecord) : String := r.message_body.getD ("")

/-- Sent count with default: `row.get('mcsent', 0)`. -/
def mcsentOf (r : EmailRecord) : Nat := r.mcsent.getD 0

/-- Opened count with default: `row.get('mcopened', 0)`. -/
def mcopenedOf (r : EmailRecord) : Nat := r.mcopened.getD 0

/-- Clicked count with default: `row.get('mcclicked', 0)`. -/
def mcclickedOf (r : EmailRecord) : Nat := r.mcclicked.getD 0

/-- Unsubscribed count with default: `row.get('mcunsub', 0)`. -/
def mcunsubOf (r : EmailRecord) : Nat := r.mcunsub.getD 0

/-- Little-endian decimal digits of a natural number as characters
(empty for 0); auxiliary view of the standard decimal representation used
to reason about `Nat.repr`. -/
def natDigitsLE : Nat → List Char
  | 0 => []
  | n + 1 => Nat.digitChar ((n + 1) % 10) :: natDigitsLE ((n + 1) / 10)
decreasing_by exact Nat.div_lt_self (Nat.succ_pos n) (by norm_num)

/-- Contribution of one row to the hashed string of app.py calculateDataHash:
the two f-strings appended per row, i.e. subject, plaintext and message_body
followed by the four counts, all concatenated with no separator; Python
decimal formatting of a count is `Nat.repr`. -/
def recStr (r : EmailRecord) : String :=
  subjectOf r ++ plaintextOf r ++ messageBodyOf r ++
    Nat.repr (mcsentOf r) ++ Nat.repr (mcopenedOf r) ++
    Nat.repr (mcclickedOf r) ++ Nat.repr (mcunsubOf r)

/-- The `data_string` accumulated over all rows in order by
app.py calculateDataHash. -/
def dataString : List EmailRecord → String
  | [] => ""
  | r :: rs => recStr r ++ dataString rs

/-- Model of app.py calculateDataHash: the code returns
`hashlib.md5(data_string.encode()).hexdigest()`; the fingerprint is modelled
by the md5 pre-image `data_string` (see the md5 convention in the file header). -/
def calculateDataHash (email_data : List EmailRecord) : String :=
  dataString email_data

/-- A record with every optional field filled in with the defaults that
`row.get` would supply: absent text fields become present-but-empty, absent
counts become present-but-zero. -/
def materializeRecord (r : EmailRecord) : EmailRecord :=
  ⟨some (subjectOf r), some (plaintextOf r), some (messageBodyOf r),
    some (mcsentOf r), some (mcopenedOf r), some (mcclickedOf r),
    some (mcunsubOf r)⟩

/-- Two rows agree on every field that calculateDataHash reads
(after the `row.get` defaulting). -/
def projEq (r r' : EmailRecord) : Prop :=
  subjectOf r = subjectOf r' ∧ plaintextOf r = plaintextOf r' ∧
    messageBodyOf r = messageBodyOf r' ∧ mcsentOf r = mcsentOf r' ∧
    mcopenedOf r = mcopenedOf r' ∧ mcclickedOf r = mcclickedOf r' ∧
    mcunsubOf r = mcunsubOf r'

instance (r r' : EmailRecord) : Decidable (projEq r r') := by
  unfold projEq; infer_instance

/-- Exactly one tracked field of the row changed (as calculateDataHash sees the
fields, i.e. after `row.get` defaulting): one projection differs and the other
six are unchanged. -/
def oneTrackedFieldChanged (r r' : EmailRecord) : Prop :=
  (subjectOf r ≠ subjectOf r' ∧ plaintextOf r = plaintextOf r' ∧
    messageBodyOf r = messageBodyOf r' ∧ mcsentOf r = mcsentOf r' ∧
    mcopenedOf r = mcopenedOf r' ∧ mcclickedOf r = mcclickedOf r' ∧
    mcunsubOf r = mcunsubOf r') ∨
  (subjectOf r = subjectOf r' ∧ plaintextOf r ≠ plaintextOf r' ∧
    messageBodyOf r = messageBodyOf r' ∧ mcsentOf r = mcsentOf r' ∧
    mcopenedOf r = mcopenedOf r' ∧ mcclickedOf r = mcclickedOf r' ∧
    mcunsubOf r = mcunsubOf r') ∨
  (subjectOf r = subjectOf r' ∧ plaintextOf r = plaintextOf r' ∧
    messageBodyOf r ≠ messageBodyOf r' ∧ mcsentOf r = mcsentOf r' ∧
    mcopenedOf r = mcopenedOf r' ∧ mcclickedOf r = mcclickedOf r' ∧
    mcunsubOf r = mcunsubOf r') ∨
  (subjectOf r = subjectOf r' ∧ plaintextOf r = plaintextOf r' ∧
    messageBodyOf r = messageBodyOf r' ∧ mcsentOf r ≠ mcsentOf r' ∧
    mcopenedOf r = mcopenedOf r' ∧ mcclickedOf r = mcclickedOf r' ∧
    mcunsubOf r = mcunsubOf r') ∨
  (subjectOf r = subjectOf r' ∧ plaintextOf r = plaintextOf r' ∧
    messageBodyOf r = messageBodyOf r' ∧ mcsentOf r = mcsentOf r' ∧
    mcopenedOf r ≠ mcopenedOf r' ∧ mcclickedOf r = mcclickedOf r' ∧
    mcunsubOf r = mcunsubOf r') ∨
  (subjectOf r = subjectOf r' ∧ plaintextOf r = plaintextOf r' ∧
    messageBodyOf r = messageBodyOf r' ∧ mcsentOf r = mcsentOf r' ∧
    mcopenedOf r = mcopenedOf r' ∧ mcclickedOf r ≠ mcclickedOf r' ∧
    mcunsubOf r = mcunsubOf r') ∨
  (subjectOf r = subjectOf r' ∧ plaintextOf r = plaintextOf r' ∧
    messageBodyOf r = messageBodyOf r' ∧ mcsentOf r = mcsentOf r' ∧
    mcopenedOf r = mcopenedOf r' ∧ mcclickedOf r = mcclickedOf r' ∧
    mcunsubOf r ≠ mcunsubOf r')

instance (r r' : EmailRecord) : Decidable (oneTrackedFieldChanged r r') := by
  unfold oneTrackedFieldChanged; infer_instance

/-- Value of one float cell produced by the pandas rate pipeline: a finite
rational, positive infinity (from k/0 with k greater than 0), or NaN
(from 0/0). Negative infinity cannot arise because counts are nonnegative. -/
inductive PFloat where
  | val : ℚ → PFloat
  | inf : PFloat
  | nan : PFloat
deriving DecidableEq, Repr

/-- Pandas float division of nonnegative cells: b positive gives the exact
quotient, 0/0 gives NaN, and k/0 with k positive gives infinity. -/
def pandasDiv (a b : ℚ) : PFloat :=
  if b = 0 then (if a = 0 then PFloat.nan else PFloat.inf) else PFloat.val (a / b)

/-- Multiplication of a pandas float cell by the positive constant 100
(the times-100 step of the rate formulas). -/
def pandasMul100 : PFloat → PFloat
  | PFloat.val q => PFloat.val (q * 100)
  | PFloat.inf => PFloat.inf
  | PFloat.nan => PFloat.nan

/-- Model of `Series.fillna(0)`: replaces NaN with 0 and leaves every other
value, infinity included, unchanged. -/
def fillnaZero : PFloat → PFloat
  | PFloat.nan => PFloat.val 0
  | x => x

/-- openRate column of src/src/processor.py processEmailData:
opened divided by sent, times 100, then fillna(0). -/
def openRateP (r : EmailRecord) : PFloat :=
  fillnaZero (pandasMul100 (pandasDiv (mcopenedOf r) (mcsentOf r)))

/-- clickRate column of src/src/processor.py processEmailData. -/
def clickRateP (r : EmailRecord) : PFloat :=
  fillnaZero (pandasMul100 (pandasDiv (mcclickedOf r) (mcsentOf r)))

/-- unsubRate column of src/src/processor.py processEmailData. -/
def unsubRateP (r : EmailRecord) : PFloat :=
  fillnaZero (pandasMul100 (pandasDiv (mcunsubOf r) (mcsentOf r)))

/-- Model of src/src/processor.py processEmailData restricted to its row
effect: after computing the rate columns the frame is filtered by
keeping the rows whose mcsent cell is positive, so the returned working set
is the subsequence of rows with a positive sent count (rate and score columns
are the functions above, evaluated per row). -/
def processEmailData (rows : List EmailRecord) : List EmailRecord :=
  rows.filter (fun r => 0 < mcsentOf r)

/-- Open rate as an exact rational; on the working set (sent count positive)
this equals the value held by `openRateP`. -/
def openRateQ (r : EmailRecord) : ℚ :=
  (mcopenedOf r : ℚ) / (mcsentOf r : ℚ) * 100

/-- Click rate as an exact rational, on the working set. -/
def clickRateQ (r : EmailRecord) : ℚ :=
  (mcclickedOf r : ℚ) / (mcsentOf r : ℚ) * 100

/-- Unsubscribe rate as an exact rational, on the working set. -/
def unsubRateQ (r : EmailRecord) : ℚ :=
  (mcunsubOf r : ℚ) / (mcsentOf r : ℚ) * 100

/-- effectivenessScore column of processor.py and agent.py:
openRate * 0.4 + clickRate * 0.5 - unsubRate * 0.1. -/
def effectivenessScoreQ (r : EmailRecord) : ℚ :=
  openRateQ r * (4/10) + clickRateQ r * (5/10) - unsubRateQ r * (1/10)

/-- Classified failure of one generate_content call, as the except
clauses of src/src/agent.py distinguish them: `resourceExhausted` is
ResourceExhausted from google.api_core.exceptions (HTTP 429), whose first
field records whether the message carries the daily-cap markers that app.py
string matches, and whose second field is the value parsed by the regex
for a retry-in-seconds hint when the message contains one; `otherError` is
any other exception. -/
inductive GenErr where
  | resourceExhausted : Bool → Option ℚ → GenErr
  | otherError : String → GenErr
deriving DecidableEq, Repr

/-- Observable behaviour of one pass through a retry loop of
src/src/agent.py: how many generate_content attempts were made, the
time.sleep backoff waits in order, and the final outcome (returned text or
re-raised error). -/
structure RetryOutcome where
  attempts : Nat
  waits : List ℚ
  result : Except GenErr String
deriving Repr

/-- One retry loop of src/src/agent.py (the identical
for-attempt-in-range-maxRetries block of analyzeEmailBatch, the final
synthesis, chatWithEmailExpert and analyzeSingleEmailForImprovement).
`fuel` is the number of loop iterations left (maxRetries - attempt); the
capability is indexed by the global generation-call counter, starting at
`base` for this call site. On ResourceExhausted with iterations left, the
delay becomes parsedHint + 2 when a hint was parsed (otherwise the current
retryDelay is kept), the loop sleeps that delay and multiplies it by 1.5;
on the last iteration the error is re-raised, and any other error is
re-raised at once. The fuel-zero row is unreachable from `quotaAwareCall`
(fuel starts at 3). -/
def retryLoop (cap : Nat → Except GenErr String) (base : Nat) :
    Nat → Nat → ℚ → List ℚ → RetryOutcome
  | attempt, 0, _, waits =>
    ⟨attempt, waits, Except.error (GenErr.otherError ("loopExhausted"))⟩
  | attempt, fuel + 1, retryDelay, waits =>
    match cap (base + attempt) with
    | Except.ok t => ⟨attempt + 1, waits, Except.ok t⟩
    | Except.error (GenErr.resourceExhausted d hint) =>
      if fuel = 0 then
        ⟨attempt + 1, waits, Except.error (GenErr.resourceExhausted d hint)⟩
      else
        let dly : ℚ := match hint with | some sec => sec + 2 | none => retryDelay
        retryLoop cap base (attempt + 1) fuel (dly * 1.5) (waits ++ [dly])
    | Except.error (GenErr.otherError m) =>
      ⟨attempt + 1, waits, Except.error (GenErr.otherError m)⟩

/-- The shared quota-aware wrapper: every call site of src/src/agent.py runs
the retry loop with maxRetries = 3 and initial retryDelay = 20. -/
def quotaAwareCall (cap : Nat → Except GenErr String) (base : Nat) : RetryOutcome :=
  retryLoop cap base 0 3 20 []

/-- Batch partition of src/src/agent.py analyzeEmailBatch: the loop
for i in range(0, totalEmails, batchSize) slicing iloc i to i+batchSize.
Empty result for batch size 0 (Python would raise there; every call site
passes 3). -/
def chunkList (batchSize : Nat) : List α → List (List α)
  | [] => []
  | x :: rest =>
    if batchSize = 0 then []
    else (x :: rest).take batchSize :: chunkList batchSize ((x :: rest).drop batchSize)
  termination_by xs => xs.length
  decreasing_by
    simp only [List.length_drop, List.length_cons]
    omega

/-- totalBatches of analyzeEmailBatch:
(totalEmails + batchSize - 1) divided by batchSize, the ceiling of N / B. -/
def totalBatches (totalEmails batchSize : Nat) : Nat :=
  (totalEmails + batchSize - 1) / batchSize

/-- The planned batches with the tags the per-batch prompt receives:
batchNum = i / batchSize + 1 (1-based) and totalBatches, exactly as
analyzeEmailBatch computes them for the batch prompt header. -/
def planBatches (batchSize : Nat) (xs : List α) : List (Nat × Nat × List α) :=
  (chunkList batchSize xs).enum.map
    (fun p => (p.1 + 1, totalBatches xs.length batchSize, p.2))

/-- Per-batch loop of analyzeEmailBatch: one quota-aware generation call per
batch in order, stopping at the first re-raised error. Returns the updated
global call counter and either every batch text or the error. -/
def runBatchCalls (cap : Nat → Except GenErr String) :
    List (List EmailRecord) → Nat → Nat × Except GenErr (List String)
  | [], calls => (calls, Except.ok [])
  | _batch :: rest, calls =>
    let r := quotaAwareCall cap calls
    match r.result with
    | Except.error e => (calls + r.attempts, Except.error e)
    | Except.ok t =>
      match runBatchCalls cap rest (calls + r.attempts) with
      | (calls', Except.ok ts) => (calls', Except.ok (t :: ts))
      | (calls', Except.error e) => (calls', Except.error e)

/-- Model of src/src/agent.py analyzeEmailBatch: rank the rows by
effectivenessScore descending, split them into batches, run one quota-aware
generation call per batch, then one final synthesis call over the
concatenated analyses. Returns the total number of generation attempts
issued and the final text or the propagated error. Prompt strings do not
influence control flow and are left opaque; the capability sees only the
global call index. -/
def analyzeEmailBatch (cap : Nat → Except GenErr String)
    (records : List EmailRecord) (batchSize : Nat) : Nat × Except GenErr String :=
  let ranked := records.mergeSort
    (fun a b => effectivenessScoreQ b ≤ effectivenessScoreQ a)
  let batches := chunkList batchSize ranked
  match runBatchCalls cap batches 0 with
  | (calls, Except.error e) => (calls, Except.error e)
  | (calls, Except.ok _texts) =>
    let fin := quotaAwareCall cap calls
    (calls + fin.attempts, fin.result)

/-- The cache blob persisted by app.py saveAnalysisToCache (the timestamp
field is omitted: no claim reads it). -/
structure CacheEntry where
  analysis_result : String
  email_context : String
  data_hash : String
  email_count : Nat
  avg_open_rate : ℚ
  avg_click_rate : ℚ
deriving DecidableEq, Repr

/-- The pieces of Streamlit session state and of the on-disk cache file that
runCompleteAnalysis reads or writes. -/
structure AppState where
  analysis_results : Option String
  email_context : Option String
  data_hash : Option String
  cacheFile : Option CacheEntry
deriving DecidableEq, Repr

/-- Model of app.py loadCachedAnalysis: the persisted entry when the file
exists and parses; a missing file, an IO failure or a parse failure all
degrade to none (logged, never raised). -/
def loadCachedAnalysis (st : AppState) : Option CacheEntry :=
  st.cacheFile

/-- Mean of a rational column over the rows (pandas Series.mean). -/
def meanQ (f : EmailRecord → ℚ) (rows : List EmailRecord) : ℚ :=
  (rows.map f).sum / (rows.length : ℚ)

/-- Model of app.py saveAnalysisToCache: overwrite the single cache slot with
the new entry built from the result, the context summary, the data hash and
the aggregate statistics of the analyzed rows. -/
def saveAnalysisToCache (analysis_result email_context data_hash : String)
    (email_data : List EmailRecord) (st : AppState) : AppState :=
  { st with cacheFile := some (CacheEntry.mk analysis_result email_context
      data_hash email_data.length (meanQ openRateQ email_data)
      (meanQ clickRateQ email_data)) }

/-- The context summary string built by runCompleteAnalysis after a
successful analysis: record count, mean rates and the subject of the
top-ranked row (N/A when there is none). -/
def contextSummary (email_data : List EmailRecord) : String :=
  "Email Performance Summary: emails " ++ Nat.repr email_data.length ++
    ", avg open rate " ++ toString (meanQ openRateQ email_data) ++
    ", avg click rate " ++ toString (meanQ clickRateQ email_data) ++
    ", avg unsub rate " ++ toString (meanQ unsubRateQ email_data) ++
    ", top subject " ++
    (match (email_data.mergeSort
        (fun a b => effectivenessScoreQ b ≤ effectivenessScoreQ a)).head? with
     | some r => subjectOf r
     | none => "N/A")

/-- Terminal outcome of one analysis run, as the UI layer of app.py reports
it: success, the empty-data error, the daily-limit message (matched on the
daily-cap substrings), the transient rate-limit advice carrying the parsed
wait seconds when present, or any other failure. -/
inductive RunOutcome where
  | success : RunOutcome
  | dataError : RunOutcome
  | dailyLimit : RunOutcome
  | rateLimitAdvice : Option ℚ → RunOutcome
  | generalFailure : String → RunOutcome
deriving DecidableEq, Repr

/-- Error classification of the except branch of runCompleteAnalysis
(string matching on the exception text, abstracted by the GenErr fields). -/
def classifyFailure : GenErr → RunOutcome
  | GenErr.resourceExhausted true _ => RunOutcome.dailyLimit
  | GenErr.resourceExhausted false hint => RunOutcome.rateLimitAdvice hint
  | GenErr.otherError m => RunOutcome.generalFailure m

/-- Model of app.py runCompleteAnalysis: load and process the rows, abort on
empty data before any generation call, compute the fingerprint, serve from
the cache when not forcing a refresh and the stored hash matches, otherwise
run the batch analysis; on success store the new entry, on failure leave the
whole state (cache file included) unchanged and report the classified error.
Returns the new state, the number of generation attempts issued and the
outcome. -/
def runCompleteAnalysis (cap : Nat → Except GenErr String)
    (rows : List EmailRecord) (force_refresh : Bool) (st : AppState) :
    AppState × Nat × RunOutcome :=
  match processEmailData rows with
  | [] => (st, 0, RunOutcome.dataError)
  | e :: es =>
    let email_data := e :: es
    let current_hash := calculateDataHash email_data
    let hit : Option CacheEntry :=
      if force_refresh then none
      else match loadCachedAnalysis st with
        | some c => if c.data_hash = current_hash then some c else none
        | none => none
    match hit with
    | some c =>
      ({ st with analysis_results := some c.analysis_result,
                 email_context := some c.email_context,
                 data_hash := some current_hash }, 0, RunOutcome.success)
    | none =>
      match analyzeEmailBatch cap email_data 3 with
      | (calls, Except.ok analysis) =>
        let summary := contextSummary email_data
        let st1 := { st with analysis_results := some analysis,
                             email_context := some summary,
                             data_hash := some current_hash }
        (saveAnalysisToCache analysis summary current_hash email_data st1,
          calls, RunOutcome.success)
      | (calls, Except.error err) => (st, calls, classifyFailure err)

/-- One message of the chat history (a role/content dict in app.py); absent
keys take the defaults of msg.get. -/
structure ChatMsg where
  role : Option String
  content : Option String
deriving DecidableEq, Repr

/-- Text contributed by one history message to the conversation context of
chatWithEmailExpert: user and assistant messages are rendered with their
prefixes, any other role adds nothing. -/
def chatMsgLine (m : ChatMsg) : String :=
  if m.role.getD ("user") = "user" then "User: " ++ m.content.getD ("") ++ "\n\n"
  else if m.role.getD ("user") = "assistant" then
    "Expert: " ++ m.content.getD ("") ++ "\n\n"
  else ""

/-- Conversation context of src/src/agent.py chatWithEmailExpert: only the
last 10 history messages are rendered, in order. -/
def buildConversationText (conversationHistory : List ChatMsg) : String :=
  ((conversationHistory.drop (conversationHistory.length - 10)).map
    chatMsgLine).foldl (fun a b => a ++ b) ""

/-- Model of getEmailMarketingExpertSystemPrompt: the long instruction text
is abbreviated (its content never influences control flow); the optional
email-data context is appended when present, as in the source. -/
def getEmailMarketingExpertSystemPrompt (emailDataContext : Option String) : String :=
  "You are an expert email marketing consultant." ++
    (match emailDataContext with
     | some c => "\n\n**Current Email Performance Context:**\n" ++ c
     | none => "")

/-- The full prompt assembled by chatWithEmailExpert: system prompt, the
(possibly defaulted) conversation context and the current question. -/
def chatFullPrompt (userQuestion : String) (conversationHistory : List ChatMsg)
    (emailDataContext : Option String) : String :=
  getEmailMarketingExpertSystemPrompt emailDataContext ++
    "\n\n**Conversation History:**\n" ++
    (if buildConversationText conversationHistory = "" then
      "This is the start of the conversation."
     else buildConversationText conversationHistory) ++
    "\n\n**Current User Question:**\n" ++ userQuestion ++
    "\n\n**Your Response:**\n"

/-- Model of src/src/agent.py chatWithEmailExpert: build the full prompt and
make a single generation call through the shared quota-aware retry wrapper.
No batch partitioning and no cache access occur on this path: the capability
and the prompt are the only inputs, and the retry outcome is the only
output. -/
def chatWithEmailExpert (cap : String → Nat → Except GenErr String)
    (userQuestion : String) (conversationHistory : List ChatMsg)
    (emailDataContext : Option String) : RetryOutcome :=
  quotaAwareCall
    (cap (chatFullPrompt userQuestion conversationHistory emailDataContext)) 0

/-- A capability that always raises the daily-exhausted ResourceExhausted
error (no retry-in hint in the message). -/
def capDaily : Nat → Except GenErr String :=
  fun _ => Except.error (GenErr.resourceExhausted true none)

/-- A capability that fails twice with a rate-limited error carrying the
hint "retry in 5s" and then succeeds. -/
def capHint5Twice : Nat → Except GenErr String :=
  fun n =>
    if n < 2 then Except.error (GenErr.resourceExhausted false (some 5))
    else Except.ok ("recovered")

/-- A capability that always fails with a rate-limited error carrying the
hint "retry in 5s". -/
def capHint5Always : Nat → Except GenErr String :=
  fun _ => Except.error (GenErr.resourceExhausted false (some 5))

/-- A capability that always fails with a rate-limited error carrying no
retry-after hint. -/
def capNoHintAlways : Nat → Except GenErr String :=
  fun _ => Except.error (GenErr.resourceExhausted false none)

/-- A capability that always succeeds, returning the call index as text. -/
def capOk : Nat → Except GenErr String :=
  fun n => Except.ok (Nat.repr n)

/-- A capability that always fails with a non-quota error. -/
def capBoom : Nat → Except GenErr String :=
  fun _ => Except.error (GenErr.otherError ("boom"))

/-- A fully populated sample row. -/
def mkRec (subj : String) (sent opened clicked unsub : Nat) : EmailRecord :=
  ⟨some subj, none, none, some sent, some opened, some clicked, some unsub⟩

/-- Seven sample rows with positive sent counts (the 7-record scenario). -/
def sevenRecords : List EmailRecord :=
  [mkRec ("e1") 10 5 2 0, mkRec ("e2") 10 6 1 0, mkRec ("e3") 10 4 3 1,
   mkRec ("e4") 10 7 2 0, mkRec ("e5") 10 3 1 0, mkRec ("e6") 10 8 4 0,
   mkRec ("e7") 10 2 0 0]

/-- Row whose subject is the four characters 0000 and whose other fields are
absent; its hash contribution is 00000000. -/
def rowZeros : EmailRecord := ⟨some ("0000"), none, none, none, none, none, none⟩

/-- Row with every field absent; its hash contribution is 0000. -/
def rowEmpty : EmailRecord := ⟨none, none, none, none, none, none, none⟩

/-- Row with a zero sent count but a positive opened count. -/
def rowZeroSent : EmailRecord :=
  ⟨some ("z"), none, none, some 0, some 5, some 0, some 0⟩

/-- Sample cached row for the cache-freshness scenario. -/
def rowCached : EmailRecord := mkRec ("hello") 10 5 1 0

/-- The cached row with only its subject changed. -/
def rowChangedSubject : EmailRecord := mkRec ("goodbye") 10 5 1 0

/-- Session state holding a cache entry for rowCached. -/
def stCached : AppState :=
  ⟨none, none, none,
    some ⟨"cached analysis", "cached context", calculateDataHash [rowCached],
      1, 50, 10⟩⟩

/-- A prompt-taking capability that always succeeds. -/
def capChatOk : String → Nat → Except GenErr String :=
  fun _ _ => Except.ok ("answer")

/-- A two-message chat history sample. -/
def histSample : List ChatMsg :=
  [⟨some ("user"), some ("hi")⟩, ⟨some ("assistant"), some ("hello")⟩]

/-- Row with subject ab, empty bodies, sent 1 and zero other counts; its
hash contribution is the string ab1000. -/
def rowSubjectAB : EmailRecord :=
  ⟨some ("ab"), some (""), some (""), some 1, some 0, some 0, some 0⟩

/-- Row with subject a and plaintext b, otherwise like rowSubjectAB: two
tracked fields differ from rowSubjectAB, yet because the fields are
concatenated with no separator its hash contribution is the same string
ab1000. -/
def rowSubjectSplit : EmailRecord :=
  ⟨some ("a"), some ("b"), some (""), some 1, some 0, some 0, some 0⟩

/-- Session state holding a cache entry for rowSubjectAB. -/
def stCachedAB : AppState :=
  ⟨none, none, none,
    some ⟨"cached analysis", "cached context", calculateDataHash [rowSubjectAB],
      1, 0, 0⟩⟩

theorem str_append_cancel_right {a b c : String} (h : a ++ c = b ++ c) :
    a = b := by
  apply String.ext
  have hd := congrArg String.data h
  simp only [String.data_append] at hd
  exact List.append_cancel_right hd

theorem str_append_cancel_left {a b c : String} (h : a ++ b = a ++ c) :
    b = c := by
  apply String.ext
  have hd := congrArg String.data h
  simp only [String.data_append] at hd
  exact List.append_cancel_left hd

theorem str_empty_append (s : String) : "" ++ s = s := by
  apply String.ext
  simp [String.data_append]

theorem str_append_assoc (a b c : String) : a ++ b ++ c = a ++ (b ++ c) := by
  apply String.ext
  simp [String.data_append]

theorem digitChar_inj_lt10 :
    ∀ a, a < 10 → ∀ b, b < 10 → Nat.digitChar a = Nat.digitChar b → a = b := by
  decide

theorem natDigitsLE_succ (n : Nat) :
    natDigitsLE (n + 1) =
      Nat.digitChar ((n + 1) % 10) :: natDigitsLE ((n + 1) / 10) := by
  rw [natDigitsLE]

theorem natDigitsLE_of_pos {n : Nat} (h : n ≠ 0) :
    natDigitsLE n = Nat.digitChar (n % 10) :: natDigitsLE (n / 10) := by
  cases n with
  | zero => exact absurd rfl h
  | succ m => exact natDigitsLE_succ m

theorem natDigitsLE_eq_nil_iff (n : Nat) : natDigitsLE n = [] ↔ n = 0 := by
  cases n with
  | zero => simp [natDigitsLE]
  | succ m => simp [natDigitsLE_succ]

theorem natDigitsLE_inj : ∀ m n : Nat, natDigitsLE m = natDigitsLE n → m = n := by
  intro m
  induction m using Nat.strong_induction_on with
  | _ m ih =>
    intro n h
    match m, n with
    | 0, 0 => rfl
    | 0, n + 1 => rw [natDigitsLE_succ] at h; exact absurd h.symm (by simp [natDigitsLE])
    | m + 1, 0 => rw [natDigitsLE_succ] at h; exact absurd h (by simp [natDigitsLE])
    | m + 1, n + 1 =>
      rw [natDigitsLE_succ, natDigitsLE_succ] at h
      have h1 : Nat.digitChar ((m + 1) % 10) = Nat.digitChar ((n + 1) % 10) :=
        (List.cons.injEq _ _ _ _ ▸ h).1
      have h2 : natDigitsLE ((m + 1) / 10) = natDigitsLE ((n + 1) / 10) :=
        (List.cons.injEq _ _ _ _ ▸ h).2
      have hmod : (m + 1) % 10 = (n + 1) % 10 :=
        digitChar_inj_lt10 _ (Nat.mod_lt _ (by norm_num)) _
          (Nat.mod_lt _ (by norm_num)) h1
      have hdiv : (m + 1) / 10 = (n + 1) / 10 :=
        ih ((m + 1) / 10) (Nat.div_lt_self (Nat.succ_pos m) (by norm_num)) _ h2
      omega

theorem toDigitsCore_10_eq :
    ∀ (f n : Nat) (acc : List Char), n < f →
      Nat.toDigitsCore 10 f n acc =
        (if n = 0 then ['0'] else (natDigitsLE n).reverse) ++ acc := by
  intro f
  induction f with
  | zero => intro n acc h; exact absurd h (Nat.not_lt_zero n)
  | succ f ih =>
    intro n acc h
    rw [Nat.toDigitsCore]
    by_cases h0 : n = 0
    · subst h0; simp [Nat.digitChar]
    · by_cases hd : n / 10 = 0
      · simp only [hd, if_pos rfl, if_neg h0, natDigitsLE_of_pos h0,
          natDigitsLE, List.reverse_cons, List.reverse_nil, List.nil_append,
          List.singleton_append]
        simp
      · have hlt : n / 10 < f := by
          have hn : n ≤ f := Nat.lt_succ_iff.mp h
          have : n / 10 < n := Nat.div_lt_self (Nat.pos_of_ne_zero h0) (by norm_num)
          omega
        simp only [if_neg hd]
        rw [ih (n / 10) _ hlt]
        simp only [if_neg hd, if_neg h0, natDigitsLE_of_pos h0, List.reverse_cons,
          List.append_assoc, List.singleton_append]

theorem natRepr_eq (n : Nat) :
    Nat.repr n = ((if n = 0 then ['0'] else (natDigitsLE n).reverse)).asString := by
  show (Nat.toDigits 10 n).asString = _
  rw [Nat.toDigits, toDigitsCore_10_eq (n + 1) n [] (Nat.lt_succ_self n)]
  simp

theorem natRepr_injective : Function.Injective Nat.repr := by
  intro m n h
  rw [natRepr_eq, natRepr_eq] at h
  have h' : (if m = 0 then ['0'] else (natDigitsLE m).reverse) =
      (if n = 0 then ['0'] else (natDigitsLE n).reverse) := by
    have := congrArg String.data h
    simpa [List.asString] using this
  by_cases hm : m = 0 <;> by_cases hn : n = 0
  · omega
  · exfalso
    simp only [if_pos hm, if_neg hn] at h'
    have hrev : natDigitsLE n = ['0'] := by
      have := congrArg List.reverse h'
      simpa using this.symm
    rw [natDigitsLE_of_pos hn] at hrev
    have h1 : Nat.digitChar (n % 10) = '0' := (List.cons.injEq _ _ _ _ ▸ hrev).1
    have h2 : natDigitsLE (n / 10) = [] := (List.cons.injEq _ _ _ _ ▸ hrev).2
    have hmod : n % 10 = 0 :=
      digitChar_inj_lt10 _ (Nat.mod_lt _ (by norm_num)) 0 (by norm_num) h1
    have hdiv : n / 10 = 0 := (natDigitsLE_eq_nil_iff _).mp h2
    omega
  · exfalso
    simp only [if_neg hm, if_pos hn] at h'
    have hrev : natDigitsLE m = ['0'] := by
      have := congrArg List.reverse h'
      simpa using this
    rw [natDigitsLE_of_pos hm] at hrev
    have h1 : Nat.digitChar (m % 10) = '0' := (List.cons.injEq _ _ _ _ ▸ hrev).1
    have h2 : natDigitsLE (m / 10) = [] := (List.cons.injEq _ _ _ _ ▸ hrev).2
    have hmod : m % 10 = 0 :=
      digitChar_inj_lt10 _ (Nat.mod_lt _ (by norm_num)) 0 (by norm_num) h1
    have hdiv : m / 10 = 0 := (natDigitsLE_eq_nil_iff _).mp h2
    omega
  · simp only [if_neg hm, if_neg hn] at h'
    exact natDigitsLE_inj m n (List.reverse_injective h')

theorem natRepr_data_ne_nil (n : Nat) : (Nat.repr n).data ≠ [] := by
  rw [natRepr_eq]
  by_cases h : n = 0
  · simp [h, List.asString]
  · simp only [if_neg h, List.asString]
    simp [natDigitsLE_of_pos h]

theorem recStr_data (r : EmailRecord) :
    (recStr r).data =
      (subjectOf r).data ++ ((plaintextOf r).data ++ ((messageBodyOf r).data ++
        ((Nat.repr (mcsentOf r)).data ++ ((Nat.repr (mcopenedOf r)).data ++
          ((Nat.repr (mcclickedOf r)).data ++ (Nat.repr (mcunsubOf r)).data))))) := by
  simp [recStr, String.data_append, List.append_assoc]

theorem list_middle_cancel {P S x y : List Char}
    (h : P ++ (x ++ S) = P ++ (y ++ S)) : x = y :=
  List.append_cancel_right (List.append_cancel_left h)

theorem str_of_data_eq {a b : String} (h : a.data = b.data) : a = b :=
  String.ext h

theorem natRepr_data_inj {a b : Nat}
    (h : (Nat.repr a).data = (Nat.repr b).data) : a = b :=
  natRepr_injective (String.ext h)

theorem recStr_congr {r r' : EmailRecord} (h : projEq r r') :
    recStr r = recStr r' := by
  obtain ⟨e1, e2, e3, e4, e5, e6, e7⟩ := h
  simp [recStr, e1, e2, e3, e4, e5, e6, e7]

theorem recStr_ne_of_oneTrackedFieldChanged {r r' : EmailRecord}
    (h : oneTrackedFieldChanged r r') : recStr r ≠ recStr r' := by
  intro he
  have hd := congrArg String.data he
  rw [recStr_data, recStr_data] at hd
  rcases h with ⟨h1, e2, e3, e4, e5, e6, e7⟩ | ⟨e1, h2, e3, e4, e5, e6, e7⟩ |
    ⟨e1, e2, h3, e4, e5, e6, e7⟩ | ⟨e1, e2, e3, h4, e5, e6, e7⟩ |
    ⟨e1, e2, e3, e4, h5, e6, e7⟩ | ⟨e1, e2, e3, e4, e5, h6, e7⟩ |
    ⟨e1, e2, e3, e4, e5, e6, h7⟩
  · rw [e2, e3, e4, e5, e6, e7] at hd
    exact h1 (str_of_data_eq (List.append_cancel_right hd))
  · rw [e1, e3, e4, e5, e6, e7] at hd
    exact h2 (str_of_data_eq (list_middle_cancel hd))
  · rw [e1, e2, e4, e5, e6, e7] at hd
    exact h3 (str_of_data_eq (list_middle_cancel (List.append_cancel_left hd)))
  · rw [e1, e2, e3, e5, e6, e7] at hd
    exact h4 (natRepr_data_inj (list_middle_cancel
      (List.append_cancel_left (List.append_cancel_left hd))))
  · rw [e1, e2, e3, e4, e6, e7] at hd
    exact h5 (natRepr_data_inj (list_middle_cancel
      (List.append_cancel_left (List.append_cancel_left
        (List.append_cancel_left hd)))))
  · rw [e1, e2, e3, e4, e5, e7] at hd
    exact h6 (natRepr_data_inj (list_middle_cancel
      (List.append_cancel_left (List.append_cancel_left
        (List.append_cancel_left (List.append_cancel_left hd))))))
  · rw [e1, e2, e3, e4, e5, e6] at hd
    exact h7 (natRepr_data_inj (List.append_cancel_left
      (List.append_cancel_left (List.append_cancel_left
        (List.append_cancel_left (List.append_cancel_left
          (List.append_cancel_left hd)))))))

theorem dataString_append (xs ys : List EmailRecord) :
    dataString (xs ++ ys) = dataString xs ++ dataString ys := by
  induction xs with
  | nil => simp [dataString, str_empty_append]
  | cons r rs ih => simp [dataString, ih, str_append_assoc]

theorem dataString_congr :
    ∀ {xs ys : List EmailRecord}, List.Forall₂ projEq xs ys →
      dataString xs = dataString ys := by
  intro xs ys h
  induction h with
  | nil => rfl
  | cons hr _ ih => simp [dataString, recStr_congr hr, ih]

theorem dataString_middle_ne {r r' : EmailRecord} (P S : List EmailRecord)
    (hne : recStr r ≠ recStr r') :
    dataString (P ++ r :: S) ≠ dataString (P ++ r' :: S) := by
  intro he
  rw [dataString_append, dataString_append] at he
  have h1 : dataString (r :: S) = dataString (r' :: S) :=
    str_append_cancel_left he
  simp only [dataString] at h1
  exact hne (str_append_cancel_right h1)

theorem dataString_data_length (xs : List EmailRecord) :
    (dataString xs).data.length =
      (xs.map (fun r => (recStr r).data.length)).sum := by
  induction xs with
  | nil => simp [dataString]
  | cons r rs ih => simp [dataString, String.data_append, ih]

theorem recStr_data_length_pos (r : EmailRecord) :
    0 < (recStr r).data.length := by
  rw [recStr_data]
  have := natRepr_data_ne_nil (mcunsubOf r)
  simp only [List.length_append]
  have hlen : 0 < (Nat.repr (mcunsubOf r)).data.length :=
    List.length_pos.mpr this
  omega

theorem dataString_insert_ne (P S : List EmailRecord) (r : EmailRecord) :
    dataString (P ++ r :: S) ≠ dataString (P ++ S) := by
  intro he
  have hlen := congrArg (fun s => s.data.length) he
  simp only [dataString_data_length, List.map_append, List.sum_append,
    List.map_cons, List.sum_cons] at hlen
  have := recStr_data_length_pos r
  omega

theorem chunkList_nil {B : Nat} : chunkList B ([] : List α) = [] := by
  rw [chunkList]

theorem chunkList_cons_eq {B : Nat} (hB : B ≠ 0) (xs : List α) (hxs : xs ≠ []) :
    chunkList B xs = xs.take B :: chunkList B (xs.drop B) := by
  cases xs with
  | nil => exact absurd rfl hxs
  | cons x rest => rw [chunkList]; simp [hB]

theorem chunkList_length_fuel {B : Nat} (hB : B ≠ 0) :
    ∀ (n : Nat) (xs : List α), xs.length ≤ n →
      (chunkList B xs).length = (xs.length + B - 1) / B := by
  intro n
  induction n with
  | zero =>
    intro xs hxs
    have : xs = [] := List.eq_nil_of_length_eq_zero (Nat.le_zero.mp hxs)
    subst this
    rw [chunkList_nil]
    simp [Nat.div_eq_of_lt (by omega : B - 1 < B)]
  | succ n ih =>
    intro xs hxs
    cases xs with
    | nil =>
      rw [chunkList_nil]
      simp [Nat.div_eq_of_lt (by omega : B - 1 < B)]
    | cons x rest =>
      rw [chunkList_cons_eq hB _ (by simp)]
      have hdroplen : ((x :: rest).drop B).length = (x :: rest).length - B := by
        simp [List.length_drop]
      have hle : ((x :: rest).drop B).length ≤ n := by
        simp only [hdroplen, List.length_cons] at *
        omega
      rw [List.length_cons, ih _ hle, hdroplen]
      rcases Nat.lt_or_ge (x :: rest).length B with hlt | hge
      · have h1 : (x :: rest).length - B = 0 := by omega
        rw [h1]
        have h2 : (B - 1) / B = 0 := Nat.div_eq_of_lt (by omega)
        have h3 : ((x :: rest).length + B - 1) / B = 1 := by
          rw [Nat.div_eq_of_lt_le] <;> simp [List.length_cons] at * <;> omega
        simp only [Nat.zero_add, h3]
        omega
      · have h1 : (x :: rest).length - B + B - 1 = (x :: rest).length - 1 := by
          omega
        rw [h1]
        have h2 : (x :: rest).length + B - 1 = ((x :: rest).length - 1) + B := by
          omega
        rw [h2, Nat.add_div_right _ (Nat.pos_of_ne_zero hB)]

theorem chunkList_length {B : Nat} (hB : B ≠ 0) (xs : List α) :
    (chunkList B xs).length = totalBatches xs.length B :=
  chunkList_length_fuel hB xs.length xs (Nat.le_refl _)

theorem chunkList_flatten_fuel {B : Nat} (hB : B ≠ 0) :
    ∀ (n : Nat) (xs : List α), xs.length ≤ n →
      (chunkList B xs).flatten = xs := by
  intro n
  induction n with
  | zero =>
    intro xs hxs
    have : xs = [] := List.eq_nil_of_length_eq_zero (Nat.le_zero.mp hxs)
    subst this
    rw [chunkList_nil]
    rfl
  | succ n ih =>
    intro xs hxs
    cases xs with
    | nil => rw [chunkList_nil]; rfl
    | cons x rest =>
      rw [chunkList_cons_eq hB _ (by simp)]
      have hle : ((x :: rest).drop B).length ≤ n := by
        simp only [List.length_drop, List.length_cons] at *
        omega
      simp only [List.flatten_cons, ih _ hle, List.take_append_drop]

theorem chunkList_flatten {B : Nat} (hB : B ≠ 0) (xs : List α) :
    (chunkList B xs).flatten = xs :=
  chunkList_flatten_fuel hB xs.length xs (Nat.le_refl _)

theorem planBatches_indices (B : Nat) (xs : List α) :
    (planBatches B xs).map (fun t => t.1) =
      (List.range (chunkList B xs).length).map (fun i => i + 1) := by
  simp only [planBatches, List.map_map]
  have h : ((fun t : Nat × Nat × List α => t.1) ∘
      (fun p : Nat × List α => (p.1 + 1, totalBatches xs.length B, p.2))) =
      (fun p : Nat × List α => p.1 + 1) := rfl
  rw [h]
  have h2 : (fun p : Nat × List α => p.1 + 1) =
      ((fun i : Nat => i + 1) ∘ Prod.fst) := rfl
  rw [h2, ← List.map_map, List.enum_map_fst]

theorem planBatches_total (B : Nat) (xs : List α) :
    ∀ t ∈ planBatches B xs, t.2.1 = totalBatches xs.length B := by
  intro t ht
  simp only [planBatches, List.mem_map] at ht
  obtain ⟨p, _, hp⟩ := ht
  rw [← hp]

theorem planBatches_contents (B : Nat) (xs : List α) :
    (planBatches B xs).map (fun t => t.2.2) = chunkList B xs := by
  simp only [planBatches, List.map_map]
  have h : ((fun t : Nat × Nat × List α => t.2.2) ∘
      (fun p : Nat × List α => (p.1 + 1, totalBatches xs.length B, p.2))) =
      Prod.snd := rfl
  rw [h, List.enum_map_snd]

theorem quotaAwareCall_first_ok {cap : Nat → Except GenErr String} {base : Nat}
    {t : String} (h : cap base = Except.ok t) :
    quotaAwareCall cap base = ⟨1, [], Except.ok t⟩ := by
  simp [quotaAwareCall, retryLoop, h]

theorem retryLoop_attempt_lt {cap : Nat → Except GenErr String} {base : Nat} :
    ∀ (fuel attempt : Nat) (d : ℚ) (w : List ℚ), fuel ≠ 0 →
      attempt < (retryLoop cap base attempt fuel d w).attempts := by
  intro fuel
  induction fuel with
  | zero => intro attempt d w h; exact absurd rfl h
  | succ fuel ih =>
    intro attempt d w _
    cases hc : cap (base + attempt) with
    | ok t => simp [retryLoop, hc]
    | error e =>
      cases e with
      | resourceExhausted dd hint =>
        by_cases hf : fuel = 0
        · simp [retryLoop, hc, hf]
        · simp only [retryLoop, hc, if_neg hf]
          exact Nat.lt_trans (Nat.lt_succ_self attempt) (ih (attempt + 1) _ _ hf)
      | otherError m => simp [retryLoop, hc]

theorem quotaAwareCall_attempts_pos (cap : Nat → Except GenErr String)
    (base : Nat) : 1 ≤ (quotaAwareCall cap base).attempts :=
  retryLoop_attempt_lt 3 0 20 [] (by omega)

theorem quotaAwareCall_const_rl_none {cap : Nat → Except GenErr String}
    (d : Bool) (base : Nat)
    (h : ∀ n, cap n = Except.error (GenErr.resourceExhausted d none)) :
    quotaAwareCall cap base =
      ⟨3, [20, 30], Except.error (GenErr.resourceExhausted d none)⟩ := by
  simp [quotaAwareCall, retryLoop, h]
  norm_num

theorem quotaAwareCall_const_rl_some {cap : Nat → Except GenErr String}
    (d : Bool) (q : ℚ) (base : Nat)
    (h : ∀ n, cap n = Except.error (GenErr.resourceExhausted d (some q))) :
    quotaAwareCall cap base =
      ⟨3, [q + 2, q + 2], Except.error (GenErr.resourceExhausted d (some q))⟩ := by
  simp [quotaAwareCall, retryLoop, h]

theorem runBatchCalls_calls_le (cap : Nat → Except GenErr String) :
    ∀ (bs : List (List EmailRecord)) (c : Nat),
      c ≤ (runBatchCalls cap bs c).1 := by
  intro bs
  induction bs with
  | nil => intro c; simp [runBatchCalls]
  | cons b rest ih =>
    intro c
    rw [runBatchCalls]
    cases hr : (quotaAwareCall cap c).result with
    | error e => simp
    | ok t =>
      simp only
      cases hrec : runBatchCalls cap rest (c + (quotaAwareCall cap c).attempts) with
      | mk c' res =>
        have := ih (c + (quotaAwareCall cap c).attempts)
        rw [hrec] at this
        cases res <;> simp <;> omega

theorem runBatchCalls_calls_lt {cap : Nat → Except GenErr String}
    {bs : List (List EmailRecord)} (hbs : bs ≠ []) (c : Nat) :
    c < (runBatchCalls cap bs c).1 := by
  cases bs with
  | nil => exact absurd rfl hbs
  | cons b rest =>
    rw [runBatchCalls]
    have hat := quotaAwareCall_attempts_pos cap c
    cases hr : (quotaAwareCall cap c).result with
    | error e => simp; omega
    | ok t =>
      simp only
      cases hrec : runBatchCalls cap rest (c + (quotaAwareCall cap c).attempts) with
      | mk c' res =>
        have := runBatchCalls_calls_le cap rest (c + (quotaAwareCall cap c).attempts)
        rw [hrec] at this
        cases res <;> simp <;> omega

theorem runBatchCalls_all_ok (f : Nat → String) :
    ∀ (bs : List (List EmailRecord)) (c : Nat),
      ∃ ts, runBatchCalls (fun n => Except.ok (f n)) bs c =
        (c + bs.length, Except.ok ts) := by
  intro bs
  induction bs with
  | nil => intro c; exact ⟨[], by simp [runBatchCalls]⟩
  | cons b rest ih =>
    intro c
    obtain ⟨ts, hts⟩ := ih (c + 1)
    refine ⟨f c :: ts, ?_⟩
    rw [runBatchCalls]
    have hq : quotaAwareCall (fun n => Except.ok (f n)) c =
        ⟨1, [], Except.ok (f c)⟩ := quotaAwareCall_first_ok rfl
    rw [hq]
    simp only
    rw [hts]
    simp [Nat.add_comm, Nat.add_assoc, Nat.add_left_comm, List.length_cons]

theorem analyzeEmailBatch_calls_pos (cap : Nat → Except GenErr String)
    (records : List EmailRecord) (B : Nat) :
    1 ≤ (analyzeEmailBatch cap records B).1 := by
  rw [analyzeEmailBatch]
  simp only
  cases hrb : runBatchCalls cap
      (chunkList B (records.mergeSort
        (fun a b => effectivenessScoreQ b ≤ effectivenessScoreQ a))) 0 with
  | mk calls res =>
    cases res with
    | error e =>
      simp only
      by_cases hbs : chunkList B (records.mergeSort
          (fun a b => effectivenessScoreQ b ≤ effectivenessScoreQ a)) = []
      · rw [hbs] at hrb
        simp [runBatchCalls] at hrb
      · have := @runBatchCalls_calls_lt cap _ hbs 0
        rw [hrb] at this
        omega
    | ok ts =>
      simp only
      have := quotaAwareCall_attempts_pos cap calls
      omega

theorem dropLast10_idem (hist : List ChatMsg) :
    (hist.drop (hist.length - 10)).drop
      ((hist.drop (hist.length - 10)).length - 10) =
      hist.drop (hist.length - 10) := by
  have hlen : (hist.drop (hist.length - 10)).length =
      hist.length - (hist.length - 10) := by
    simp [List.length_drop]
  rw [hlen]
  have hz : hist.length - (hist.length - 10) - 10 = 0 := by omega
  rw [hz]
  exact List.drop_zero _

theorem buildConversationText_trunc (hist : List ChatMsg) :
    buildConversationText (hist.drop (hist.length - 10)) =
      buildConversationText hist := by
  unfold buildConversationText
  rw [dropLast10_idem]

/-- C1: the claim says a daily-quota-exhausted failure on the first attempt
leads to exactly 1 generation attempt. On the code this is false: the retry
loop of src/src/agent.py catches ResourceExhausted uniformly, daily-cap
messages included, so the capability is attempted 3 times, not once. -/
theorem c1_counterexample :
    (quotaAwareCall capDaily 0).attempts = 3 ∧
      (quotaAwareCall capDaily 0).attempts ≠ 1 := by
  constructor
  · rfl
  · decide

/-- C1 (amended): a capability that always raises the daily-exhausted
ResourceExhausted error is retried like any rate-limited failure: the shared
wrapper makes exactly maxRetries = 3 attempts, then re-raises the error
unchanged in kind, and the orchestrator classifies that error as the
terminal daily-limit outcome without any further retry. -/
theorem c1_amended (cap : Nat → Except GenErr String) (hint : Option ℚ)
    (base : Nat)
    (h : ∀ n, cap n = Except.error (GenErr.resourceExhausted true hint)) :
    (quotaAwareCall cap base).attempts = 3 ∧
    (quotaAwareCall cap base).result =
      Except.error (GenErr.resourceExhausted true hint) ∧
    classifyFailure (GenErr.resourceExhausted true hint) =
      RunOutcome.dailyLimit := by
  cases hint with
  | none =>
    rw [quotaAwareCall_const_rl_none true base h]
    exact ⟨rfl, rfl, rfl⟩
  | some q =>
    rw [quotaAwareCall_const_rl_some true q base h]
    exact ⟨rfl, rfl, rfl⟩

theorem c1_amended_witness :
    (quotaAwareCall capDaily 7).attempts = 3 ∧
    (quotaAwareCall capDaily 7).result =
      Except.error (GenErr.resourceExhausted true none) ∧
    classifyFailure (GenErr.resourceExhausted true none) =
      RunOutcome.dailyLimit :=
  c1_amended capDaily none 7 (fun _ => rfl)

/-- C2: the claim says the wrapper waits max(parsed + 2, retryDelay) and that
the twice rate-limited retry-in-5s scenario waits at least 7 s then at least
10.5 s. On the code this is false: the parsed hint overwrites retryDelay, so
both waits are exactly 7 s; the first wait is not max(5 + 2, 20) = 20 and
the second is below 10.5 s. -/
theorem c2_counterexample :
    (quotaAwareCall capHint5Twice 0).waits = [7, 7] ∧
    ((7 : ℚ) ≠ max ((5 : ℚ) + 2) 20) ∧
    ¬ ((21 : ℚ) / 2 ≤ 7) := by
  refine ⟨?_, by norm_num, by norm_num⟩
  simp [quotaAwareCall, retryLoop, capHint5Twice]
  norm_num

/-- C2 (amended): when a retry-after hint is parsed, the wrapper sleeps
parsedHint + 2 regardless of the current retryDelay (the parsed value
replaces it) and the delay carried to the next round is (parsedHint + 2)
times 1.5; in the scenario where the capability fails twice with a
retry-in-5s hint and then succeeds, the call succeeds on the third attempt
with both waits exactly 7 s. -/
theorem c2_amended (cap : Nat → Except GenErr String)
    (base attempt fuel : Nat) (d : Bool) (q dly : ℚ) (w : List ℚ)
    (hfuel : fuel ≠ 0)
    (hc : cap (base + attempt) =
      Except.error (GenErr.resourceExhausted d (some q))) :
    retryLoop cap base attempt (fuel + 1) dly w =
      retryLoop cap base (attempt + 1) fuel ((q + 2) * 1.5) (w ++ [q + 2]) ∧
    quotaAwareCall capHint5Twice 0 = ⟨3, [7, 7], Except.ok ("recovered")⟩ := by
  constructor
  · simp only [retryLoop, hc, if_neg hfuel]
  · have : quotaAwareCall capHint5Twice 0 =
        ⟨3, [5 + 2, 5 + 2], Except.ok ("recovered")⟩ := by
      simp [quotaAwareCall, retryLoop, capHint5Twice]
    rw [this]
    norm_num

theorem c2_amended_witness :
    retryLoop capHint5Twice 0 0 (1 + 1) 20 [] =
      retryLoop capHint5Twice 0 1 1 (((5 : ℚ) + 2) * 1.5) ([] ++ [(5 : ℚ) + 2]) ∧
    quotaAwareCall capHint5Twice 0 = ⟨3, [7, 7], Except.ok ("recovered")⟩ :=
  c2_amended capHint5Twice 0 0 1 false 5 20 [] (by decide) rfl

/-- C3: the claim says the wait between successive attempts is strictly
increasing for every always-rate-limited capability. On the code this is
false when the error carries a fixed retry-after hint: with a constant
retry-in-5s hint both waits equal 7 s. -/
theorem c3_counterexample :
    (quotaAwareCall capHint5Always 0).attempts = 3 ∧
    (quotaAwareCall capHint5Always 0).waits = [7, 7] ∧
    ¬ List.Chain' (fun a b => a < b) (quotaAwareCall capHint5Always 0).waits := by
  have h := @quotaAwareCall_const_rl_some capHint5Always false 5 0 (fun _ => rfl)
  rw [h]
  refine ⟨rfl, by norm_num, ?_⟩
  simp only [List.chain'_cons, List.chain'_singleton, and_true]
  norm_num

/-- C3 (amended): for a capability that always raises a rate-limited error
the wrapper makes exactly maxRetries = 3 attempts and then re-raises the
error rather than dropping it; the waits between successive attempts are
strictly increasing when the error carries no parsable retry-after hint
(20 s then 30 s), while a constant parsed hint keeps them constant at
hint + 2. -/
theorem c3_amended (cap : Nat → Except GenErr String) (d : Bool)
    (hint : Option ℚ) (base : Nat)
    (h : ∀ n, cap n = Except.error (GenErr.resourceExhausted d hint)) :
    (quotaAwareCall cap base).attempts = 3 ∧
    (quotaAwareCall cap base).result =
      Except.error (GenErr.resourceExhausted d hint) ∧
    (hint = none →
      (quotaAwareCall cap base).waits = [20, 30] ∧
      List.Chain' (fun a b => a < b) (quotaAwareCall cap base).waits) := by
  cases hint with
  | none =>
    rw [quotaAwareCall_const_rl_none d base h]
    refine ⟨rfl, rfl, fun _ => ⟨rfl, ?_⟩⟩
    simp only [List.chain'_cons, List.chain'_singleton, and_true]
    norm_num
  | some q =>
    rw [quotaAwareCall_const_rl_some d q base h]
    exact ⟨rfl, rfl, fun hq => by cases hq⟩

theorem c3_amended_witness :
    (quotaAwareCall capNoHintAlways 0).attempts = 3 ∧
    (quotaAwareCall capNoHintAlways 0).result =
      Except.error (GenErr.resourceExhausted false none) ∧
    ((none : Option ℚ) = none →
      (quotaAwareCall capNoHintAlways 0).waits = [20, 30] ∧
      List.Chain' (fun a b => a < b) (quotaAwareCall capNoHintAlways 0).waits) :=
  c3_amended capNoHintAlways false none 0 (fun _ => rfl)

/-- C4: for every batch size B at least 1 the planner yields exactly
ceil(N/B) batches whose concatenation is the input sequence in order
(contiguous, non-overlapping, each record exactly once), tagged with 1-based
indices and the total batch count; 7 records at B = 3 give sizes [3, 3, 1];
and on the analysis path an always-succeeding capability issues one
generation call per batch plus one synthesis call, ceil(N/3) + 1 in total. -/
theorem c4_batch_planner {α : Type} (B : Nat) (hB : B ≠ 0) (xs : List α)
    (records : List EmailRecord) (f : Nat → String) :
    (chunkList B xs).length = totalBatches xs.length B ∧
    (chunkList B xs).flatten = xs ∧
    ((planBatches B xs).map (fun t => t.1) =
      (List.range (chunkList B xs).length).map (fun i => i + 1)) ∧
    (∀ t ∈ planBatches B xs, t.2.1 = totalBatches xs.length B) ∧
    ((planBatches B xs).map (fun t => t.2.2) = chunkList B xs) ∧
    ((chunkList 3 sevenRecords).map List.length = [3, 3, 1]) ∧
    (analyzeEmailBatch (fun n => Except.ok (f n)) records 3).1 =
      totalBatches records.length 3 + 1 := by
  refine ⟨chunkList_length hB xs, chunkList_flatten hB xs,
    planBatches_indices B xs, planBatches_total B xs,
    planBatches_contents B xs, ?_, ?_⟩
  · simp [chunkList, sevenRecords, mkRec]
  · rw [analyzeEmailBatch]
    simp only
    obtain ⟨ts, hts⟩ := runBatchCalls_all_ok f
      (chunkList 3 (records.mergeSort
        (fun a b => effectivenessScoreQ b ≤ effectivenessScoreQ a))) 0
    rw [hts]
    simp only
    have hq := @quotaAwareCall_first_ok (fun n => Except.ok (f n))
      (0 + (chunkList 3 (records.mergeSort
        (fun a b => effectivenessScoreQ b ≤ effectivenessScoreQ a))).length)
      (f (0 + (chunkList 3 (records.mergeSort
        (fun a b => effectivenessScoreQ b ≤ effectivenessScoreQ a))).length)) rfl
    rw [hq]
    have hlen := chunkList_length (by omega : (3 : Nat) ≠ 0)
      (records.mergeSort (fun a b => effectivenessScoreQ b ≤ effectivenessScoreQ a))
    rw [List.length_mergeSort] at hlen
    simp only
    omega

theorem c4_witness :
    (chunkList 3 sevenRecords).length = totalBatches sevenRecords.length 3 ∧
    (chunkList 3 sevenRecords).flatten = sevenRecords ∧
    (analyzeEmailBatch (fun n => Except.ok (Nat.repr n)) sevenRecords 3).1 = 4 := by
  have h := c4_batch_planner 3 (by decide) sevenRecords sevenRecords
    (fun n => Nat.repr n)
  refine ⟨h.1, h.2.1, ?_⟩
  rw [h.2.2.2.2.2.2]
  decide

/-- C10: the fingerprint is total over rows with absent fields: an absent
subject, plaintext or message_body contributes the empty string and an
absent count contributes 0, so a record set with such fields absent hashes
exactly like the set in which they are present but empty (zero for the
counts). -/
theorem c10_default_materialization (rows : List EmailRecord) :
    calculateDataHash rows = calculateDataHash (rows.map materializeRecord) := by
  unfold calculateDataHash
  induction rows with
  | nil => rfl
  | cons r rs ih =>
    simp only [List.map_cons, dataString]
    have hr : projEq r (materializeRecord r) := ⟨rfl, rfl, rfl, rfl, rfl, rfl, rfl⟩
    rw [ih, recStr_congr hr]

/-- C6: the claim says any record addition, removal or reordering changes the
fingerprint. Reordering need not: the fields are concatenated with no
separator, so the rows with subject 0000 (other fields absent) and with all
fields absent hash to the same string in either order, while being genuinely
different records. -/
theorem c6_counterexample :
    calculateDataHash [rowZeros, rowEmpty] = calculateDataHash [rowEmpty, rowZeros] ∧
    rowZeros ≠ rowEmpty ∧
    subjectOf rowZeros ≠ subjectOf rowEmpty := by
  refine ⟨?_, by decide, by decide⟩
  rfl

/-- C6 (amended): the fingerprint is deterministic (rows that agree on every
tracked field, in the same order, hash equal); changing exactly one tracked
field of one row changes the hashed string, and inserting or removing a row
changes it as well; reordering rows, however, can leave the fingerprint
unchanged (see the counterexample), because fields are concatenated without
separators. All sensitivity statements are modulo md5 collisions, since the
code hashes the concatenated string with md5. -/
theorem c6_amended :
    (∀ xs ys : List EmailRecord, List.Forall₂ projEq xs ys →
      calculateDataHash xs = calculateDataHash ys) ∧
    (∀ (P S : List EmailRecord) (r r' : EmailRecord),
      oneTrackedFieldChanged r r' →
      calculateDataHash (P ++ r :: S) ≠ calculateDataHash (P ++ r' :: S)) ∧
    (∀ (P S : List EmailRecord) (r : EmailRecord),
      calculateDataHash (P ++ r :: S) ≠ calculateDataHash (P ++ S)) := by
  refine ⟨?_, ?_, ?_⟩
  · intro xs ys h
    exact dataString_congr h
  · intro P S r r' h
    exact dataString_middle_ne P S (recStr_ne_of_oneTrackedFieldChanged h)
  · intro P S r
    exact dataString_insert_ne P S r

theorem c6_amended_witness :
    calculateDataHash [rowCached] = calculateDataHash [rowCached] ∧
    calculateDataHash [rowCached] ≠ calculateDataHash [rowChangedSubject] ∧
    calculateDataHash [rowCached] ≠ calculateDataHash [] := by
  refine ⟨?_, ?_, ?_⟩
  · exact c6_amended.1 [rowCached] [rowCached]
      (List.Forall₂.cons ⟨rfl, rfl, rfl, rfl, rfl, rfl, rfl⟩ List.Forall₂.nil)
  · exact c6_amended.2.1 [] [] rowCached rowChangedSubject (by decide)
  · exact c6_amended.2.2 [] [] rowCached

/-- C7: the claim says a record with zero sent count has all three rates
equal to 0. On the code this is false when a numerator is positive: fillna
only replaces NaN (0/0), not the infinity produced by 5/0, so the row with
sent 0 and opened 5 gets an infinite openRate before being filtered out. -/
theorem c7_counterexample :
    openRateP rowZeroSent = PFloat.inf ∧ PFloat.inf ≠ PFloat.val 0 := by
  constructor
  · simp only [openRateP, pandasDiv, rowZeroSent, mcopenedOf, mcsentOf,
      Option.getD]
    norm_num [pandasMul100, fillnaZero]
  · simp

/-- C7 (amended): with a zero (or absent) sent count a rate is 0 exactly when
its numerator is also 0 (the 0/0 NaN is filled with 0; a positive numerator
yields infinity instead), and every row with nonpositive sent count is
excluded from the working set before scoring, so neither NaN nor infinity
reaches the ranked set. -/
theorem c7_amended (r : EmailRecord) (rows : List EmailRecord) :
    (mcsentOf r = 0 → mcopenedOf r = 0 → openRateP r = PFloat.val 0) ∧
    (mcsentOf r = 0 → mcclickedOf r = 0 → clickRateP r = PFloat.val 0) ∧
    (mcsentOf r = 0 → mcunsubOf r = 0 → unsubRateP r = PFloat.val 0) ∧
    (r ∈ processEmailData rows → 0 < mcsentOf r) ∧
    (mcsentOf r = 0 → r ∉ processEmailData rows) := by
  refine ⟨?_, ?_, ?_, ?_, ?_⟩
  · intro hs ho
    simp [openRateP, pandasDiv, pandasMul100, fillnaZero, hs, ho]
  · intro hs hc
    simp [clickRateP, pandasDiv, pandasMul100, fillnaZero, hs, hc]
  · intro hs hu
    simp [unsubRateP, pandasDiv, pandasMul100, fillnaZero, hs, hu]
  · intro hmem
    exact (List.mem_filter.mp hmem).2 |> of_decide_eq_true
  · intro hs hmem
    have := (List.mem_filter.mp hmem).2 |> of_decide_eq_true
    omega

theorem c7_amended_witness :
    openRateP rowEmpty = PFloat.val 0 ∧
    rowZeroSent ∉ processEmailData [rowZeroSent] := by
  constructor
  · exact (c7_amended rowEmpty []).1 rfl rfl
  · exact (c7_amended rowZeroSent [rowZeroSent]).2.2.2.2 rfl

/-- C5: the claim says any tracked-field change forces a cache miss and a
generation call. On the code this is false for a simultaneous change of
several fields: calculateDataHash concatenates the fields with no separator,
so the cached row with subject ab and empty plaintext and the current row
with subject a and plaintext b (two tracked fields differ) produce the same
hashed string ab1000; runCompleteAnalysis therefore reuses the stale entry
and makes zero generation calls. -/
theorem c5_counterexample :
    subjectOf rowSubjectAB ≠ subjectOf rowSubjectSplit ∧
    plaintextOf rowSubjectAB ≠ plaintextOf rowSubjectSplit ∧
    calculateDataHash [rowSubjectAB] = calculateDataHash [rowSubjectSplit] ∧
    runCompleteAnalysis capBoom [rowSubjectSplit] false stCachedAB =
      ({ stCachedAB with
          analysis_results := some ("cached analysis"),
          email_context := some ("cached context"),
          data_hash := some (calculateDataHash [rowSubjectSplit]) }, 0,
        RunOutcome.success) := by
  refine ⟨by decide, by decide, rfl, ?_⟩
  rfl

/-- C5 (amended): with forceRefresh false and a cached entry whose dataHash
equals the fingerprint of the current working set, the run returns the
cached result and context summary with zero generation calls; and when
exactly one tracked field of one row has changed since the entry was
stored, the fingerprint differs, so the entry is not reused and at least
one generation call occurs. (A simultaneous change of several fields can
cancel in the separator-less fingerprint and be served stale: see the
counterexample.) -/
theorem c5_cache_freshness :
    (∀ (cap : Nat → Except GenErr String) (rows : List EmailRecord)
        (st : AppState) (c : CacheEntry) (e : EmailRecord)
        (es : List EmailRecord),
      processEmailData rows = e :: es →
      loadCachedAnalysis st = some c →
      c.data_hash = calculateDataHash (e :: es) →
      runCompleteAnalysis cap rows false st =
        ({ st with analysis_results := some c.analysis_result,
                   email_context := some c.email_context,
                   data_hash := some (calculateDataHash (e :: es)) }, 0,
          RunOutcome.success)) ∧
    (∀ (cap : Nat → Except GenErr String) (rows rows' : List EmailRecord)
        (st : AppState) (c : CacheEntry) (P S : List EmailRecord)
        (r r' : EmailRecord),
      processEmailData rows = P ++ r :: S →
      processEmailData rows' = P ++ r' :: S →
      oneTrackedFieldChanged r r' →
      loadCachedAnalysis st = some c →
      c.data_hash = calculateDataHash (processEmailData rows) →
      1 ≤ (runCompleteAnalysis cap rows' false st).2.1) := by
  constructor
  · intro cap rows st c e es hp hl hh
    have hl' : st.cacheFile = some c := hl
    rw [runCompleteAnalysis, hp]
    simp [loadCachedAnalysis, hl', hh]
  · intro cap rows rows' st c P S r r' hp hp' hch hl hh
    have hne : c.data_hash ≠ calculateDataHash (processEmailData rows') := by
      rw [hh, hp, hp']
      exact dataString_middle_ne P S (recStr_ne_of_oneTrackedFieldChanged hch)
    cases hPS : P ++ r' :: S with
    | nil => cases P <;> simp at hPS
    | cons y ys =>
      have hp2 : processEmailData rows' = y :: ys := hp'.trans hPS
      rw [hp2] at hne
      have hl' : st.cacheFile = some c := hl
      rw [runCompleteAnalysis, hp2]
      simp only [loadCachedAnalysis, hl', Bool.false_eq_true, if_false,
        if_neg hne]
      cases hab : analyzeEmailBatch cap (y :: ys) 3 with
      | mk calls res =>
        have hpos := analyzeEmailBatch_calls_pos cap (y :: ys) 3
        rw [hab] at hpos
        cases res <;> simpa using hpos

theorem c5_witness :
    runCompleteAnalysis capBoom [rowCached] false stCached =
      ({ stCached with
          analysis_results := some ("cached analysis"),
          email_context := some ("cached context"),
          data_hash := some (calculateDataHash [rowCached]) }, 0,
        RunOutcome.success) ∧
    1 ≤ (runCompleteAnalysis capBoom [rowChangedSubject] false stCached).2.1 := by
  constructor
  · exact c5_cache_freshness.1 capBoom [rowCached] stCached
      ⟨"cached analysis", "cached context", calculateDataHash [rowCached], 1, 50, 10⟩
      rowCached [] rfl rfl rfl
  · exact c5_cache_freshness.2 capBoom [rowCached] [rowChangedSubject] stCached
      ⟨"cached analysis", "cached context", calculateDataHash [rowCached], 1, 50, 10⟩
      [] [] rowCached rowChangedSubject rfl rfl (by decide) rfl rfl

/-- C8: when the batch analysis (any per-batch call or the synthesis) fails,
the run reports the classified error with the entire state, cache file
included, left unchanged; and in general the cache slot can only change on a
run whose outcome is success. -/
theorem c8_no_partial_cache :
    (∀ (cap : Nat → Except GenErr String) (rows : List EmailRecord)
        (st : AppState) (e : EmailRecord) (es : List EmailRecord)
        (calls : Nat) (err : GenErr),
      processEmailData rows = e :: es →
      analyzeEmailBatch cap (e :: es) 3 = (calls, Except.error err) →
      runCompleteAnalysis cap rows true st = (st, calls, classifyFailure err)) ∧
    (∀ (cap : Nat → Except GenErr String) (rows : List EmailRecord)
        (force : Bool) (st : AppState),
      (runCompleteAnalysis cap rows force st).1.cacheFile = st.cacheFile ∨
      (runCompleteAnalysis cap rows force st).2.2 = RunOutcome.success) := by
  constructor
  · intro cap rows st e es calls err hp hab
    rw [runCompleteAnalysis, hp]
    simp [hab]
  · intro cap rows force st
    rw [runCompleteAnalysis]
    cases hp : processEmailData rows with
    | nil => left; rfl
    | cons e es =>
      simp only
      split
      · left; rfl
      · split
        · right; rfl
        · left; rfl

theorem c8_witness :
    runCompleteAnalysis capBoom [rowCached] true stCached =
      (stCached, 1, classifyFailure (GenErr.otherError ("boom"))) ∧
    ((runCompleteAnalysis capBoom [rowCached] false stCached).1.cacheFile =
        stCached.cacheFile ∨
      (runCompleteAnalysis capBoom [rowCached] false stCached).2.2 =
        RunOutcome.success) := by
  constructor
  · apply c8_no_partial_cache.1 capBoom [rowCached] stCached rowCached [] 1
      (GenErr.otherError ("boom")) rfl
    simp [analyzeEmailBatch, List.mergeSort, chunkList, runBatchCalls,
      quotaAwareCall, retryLoop, capBoom]
  · exact c8_no_partial_cache.2 capBoom [rowCached] false stCached

/-- C9: for every chat invocation the history embedded in the prompt is
truncated to the most recent 10 entries (the prompt built from the full
history equals the prompt built from its last-10 suffix), and a chat turn
whose first generation attempt succeeds performs exactly one generation
call through the shared retry wrapper, with no waits; the chat path touches
no cache and no batching. -/
theorem c9_chat (cap : String → Nat → Except GenErr String) (q : String)
    (hist : List ChatMsg) (ctx : Option String) (t : String)
    (h : cap (chatFullPrompt q hist ctx) 0 = Except.ok t) :
    chatWithEmailExpert cap q hist ctx = ⟨1, [], Except.ok t⟩ ∧
    chatFullPrompt q hist ctx =
      chatFullPrompt q (hist.drop (hist.length - 10)) ctx := by
  constructor
  · rw [chatWithEmailExpert]
    exact quotaAwareCall_first_ok h
  · rw [chatFullPrompt, chatFullPrompt, buildConversationText_trunc]

theorem c9_witness :
    chatWithEmailExpert capChatOk ("how long") histSample none =
      ⟨1, [], Except.ok ("answer")⟩ ∧
    chatFullPrompt ("how long") histSample none =
      chatFullPrompt ("how long")
        (histSample.drop (histSample.length - 10)) none :=
  c9_chat capChatOk ("how long") histSample none ("answer") rfl

end EmailAgent
